import Mathlib

/-!
# Verification of the `cm_plasticity` analysis pipeline

A shallow embedding, in Lean 4, of the numerical procedures of the
`cm_plasticity` repository (`scripts/core.py`, `scripts/abf2pprox.py`,
`scripts/response-stats.py`), together with theorems settling the frozen
claims about the natural-language specification of the repository.

Conventions used throughout the embedding:
* Python floats carrying measured data are modelled as rationals (`ℚ`); all
  the operations the claims touch are exact field operations (sums, means,
  differences, quotients), so no rounding semantics is lost.
* A float that can be NaN ("undefined" in the spec) is modelled as
  `Option ℚ`, with `none` for NaN / Python `None`.  Where IEEE semantics
  of a division is relevant (0/0 ↦ NaN, x/0 ↦ ±inf) the comparison that
  consumes the quotient is modelled instead, with a comment at the spot.
* Python / numpy integer indices are `ℤ` where the source can produce
  negative values, `ℕ` otherwise.  Python slice semantics (negative index
  wrap-around, clamping) is modelled by `pySlice`; numpy scalar indexing
  (negative wrap-around, IndexError out of range) by `npGet`.
* Fallible script code is modelled in `Except SweepError`; a
  `SweepError.fatal` is a condition the script reports with `log.error`
  followed by `parser.exit` (a logged fatal exit), while a
  `SweepError.uncaught` is an unhandled Python exception (the process dies
  with a traceback, without the logged error message).
-/

namespace CmPlasticity

/-! ## `scripts/core.py` -/

/-- `core.first_index`: index of the first value in `seq` where `fn` holds,
`None` if there is none. -/
def first_index {α : Type} (fn : α → Bool) (seq : List α) : Option ℕ :=
  seq.findIdx? fn

/-- Python slice semantics `ts[s:e]` (step 1): negative indices count from
the end, and both bounds are clamped to `[0, len]`. -/
def pySlice (ts : List ℚ) (s e : ℤ) : List ℚ :=
  let n : ℤ := ts.length
  let s' : ℕ := (if s < 0 then max 0 (n + s) else min s n).toNat
  let e' : ℕ := (if e < 0 then max 0 (n + e) else min e n).toNat
  (ts.take e').drop s'

/-- numpy scalar indexing `xs[i]`: negative indices count from the end,
out-of-range access raises `IndexError`. -/
def npGet (xs : List ℚ) (i : ℤ) : Option ℚ :=
  let j : ℤ := if i < 0 then (xs.length : ℤ) + i else i
  if h : 0 ≤ j ∧ j.toNat < xs.length then some (xs.get ⟨j.toNat, h.2⟩) else none

/-- Arithmetic mean of a list (numpy `.mean()`).  For the empty list numpy
returns NaN; in ℚ the value degenerates to `0` (`0 / 0`), and every theorem
that asserts something about a mean requires the slice to be nonempty. -/
def listMean (xs : List ℚ) : ℚ :=
  xs.sum / (xs.length : ℚ)

/-- `core.Interval`: a half-open range of sample indices together with the
sampling period.  The source stores plain Python ints (which `abf2pprox`
can make negative), hence `ℤ`.  `sampling_period` is `None` at one call
site (`series_resistance`); since `mean_of` without events never reads it,
that call site passes `0` here. -/
structure Interval where
  start_index : ℤ
  end_index : ℤ
  sampling_period : ℚ
  deriving Repr, DecidableEq

/-- `Interval.times`: the interval boundaries in time units. -/
def Interval.times (iv : Interval) : ℚ × ℚ :=
  ((iv.start_index : ℚ) * iv.sampling_period, (iv.end_index : ℚ) * iv.sampling_period)

/-- `Interval.contains`: whether any event time falls in `[start, end)`. -/
def Interval.containsEvent (iv : Interval) (events : List ℚ) : Bool :=
  events.any (fun ev => decide (iv.times.1 ≤ ev ∧ ev < iv.times.2))

/-- `Interval.slice` applied to a timeseries: `timeseries[start:end]`. -/
def Interval.sliceOf (iv : Interval) (ts : List ℚ) : List ℚ :=
  pySlice ts iv.start_index iv.end_index

/-- `Interval.mean_of`: `None` when events are given and one falls inside
the interval, the mean of the selected samples otherwise. -/
def Interval.mean_of (iv : Interval) (ts : List ℚ) (events : Option (List ℚ)) :
    Option ℚ :=
  match events with
  | some evs => if iv.containsEvent evs then none else some (listMean (iv.sliceOf ts))
  | none => some (listMean (iv.sliceOf ts))

theorem containsEvent_iff (iv : Interval) (evs : List ℚ) :
    iv.containsEvent evs = true ↔
      ∃ t ∈ evs, (iv.start_index : ℚ) * iv.sampling_period ≤ t ∧
        t < (iv.end_index : ℚ) * iv.sampling_period := by
  simp [Interval.containsEvent, List.any_eq_true, Interval.times]

theorem pySlice_eq_drop_take (ts : List ℚ) (s e : ℤ) (h0 : 0 ≤ s) (hse : s ≤ e)
    (hl : e ≤ (ts.length : ℤ)) :
    pySlice ts s e = (ts.drop s.toNat).take ((e - s).toNat) := by
  unfold pySlice
  have hs : ¬ s < 0 := by omega
  have he : ¬ e < 0 := by omega
  have h1 : min s (ts.length : ℤ) = s := min_eq_left (by omega)
  have h2 : min e (ts.length : ℤ) = e := min_eq_left hl
  simp only [if_neg hs, if_neg he, h1, h2]
  rw [List.drop_take]
  congr 1
  omega

theorem pySlice_length (ts : List ℚ) (s e : ℤ) (h0 : 0 ≤ s) (hse : s ≤ e)
    (hl : e ≤ (ts.length : ℤ)) :
    (pySlice ts s e).length = (e - s).toNat := by
  rw [pySlice_eq_drop_take ts s e h0 hse hl, List.length_take, List.length_drop]
  omega

/-- C2: `Interval.mean_of` with an event list returns `None` exactly when
some event time lies in `[start*period, end*period)`; otherwise (for an
in-range, nonempty index interval) it returns the arithmetic mean of the
samples at indices `[start, end)`. -/
theorem mean_of_none_iff_event_in_interval (iv : Interval) (ts evs : List ℚ) :
    (iv.mean_of ts (some evs) = none ↔
      ∃ t ∈ evs, (iv.start_index : ℚ) * iv.sampling_period ≤ t ∧
        t < (iv.end_index : ℚ) * iv.sampling_period) ∧
    (0 ≤ iv.start_index → iv.start_index < iv.end_index →
      iv.end_index ≤ (ts.length : ℤ) →
      (¬ ∃ t ∈ evs, (iv.start_index : ℚ) * iv.sampling_period ≤ t ∧
        t < (iv.end_index : ℚ) * iv.sampling_period) →
      iv.mean_of ts (some evs) =
        some (((ts.drop iv.start_index.toNat).take
            ((iv.end_index - iv.start_index).toNat)).sum /
          ((iv.end_index - iv.start_index : ℤ) : ℚ))) := by
  constructor
  · rw [← containsEvent_iff]
    unfold Interval.mean_of
    by_cases h : iv.containsEvent evs <;> simp [h]
  · intro h0 hse hl hno
    rw [← containsEvent_iff] at hno
    have hc : iv.containsEvent evs = false := by
      cases hcc : iv.containsEvent evs
      · rfl
      · exact absurd hcc hno
    simp only [Interval.mean_of, hc, Bool.false_eq_true, if_false, Option.some.injEq]
    unfold listMean Interval.sliceOf
    have hX : ((ts.drop iv.start_index.toNat).take
        ((iv.end_index - iv.start_index).toNat)).length =
        (iv.end_index - iv.start_index).toNat := by
      rw [List.length_take, List.length_drop]
      omega
    rw [pySlice_eq_drop_take ts _ _ h0 (le_of_lt hse) hl, hX]
    congr 1
    exact_mod_cast congrArg (fun z => ((z : ℤ) : ℚ)) (Int.toNat_of_nonneg (by omega :
      (0 : ℤ) ≤ iv.end_index - iv.start_index))

/-- Witness for C2 at a concrete input: interval `[0, 2)` with period 1 on
trace `[3, 5, 10]` and a single event at time 10 (outside the interval)
yields the mean 4. -/
theorem mean_of_none_iff_event_in_interval_witness :
    (Interval.mk 0 2 1).mean_of [3, 5, 10] (some [10]) = some 4 := by
  have h := (mean_of_none_iff_event_in_interval (Interval.mk 0 2 1) [3, 5, 10] [10]).2
    (by decide) (by decide) (by decide) (by norm_num)
  rw [h]
  norm_num [show Int.toNat 2 = 2 from rfl, List.take_succ_cons, List.take_zero,
    List.sum_cons, List.sum_nil]

/-! ## `response-stats.py`: cumulative spike counts (`cum_spikes`) -/

/-- pandas `Series.cumsum()`: running sums, same length. -/
def cumsum : List ℤ → List ℤ
  | [] => []
  | x :: t => x :: (cumsum t).map (fun y => x + y)

/-- pandas `Series.shift(1, fill_value=0)`: drop the last element and
prepend the fill value. -/
def shift1 (xs : List ℤ) : List ℤ :=
  0 :: xs.dropLast

/-- `response-stats.py` (`__main__`): per cell,
`(n_spont + n_evoked).shift(1, fill_value=0).cumsum()` over the cell's
epochs in order; `xs` is the per-epoch list of `n_spont + n_evoked`. -/
def cum_spikes (xs : List ℤ) : List ℤ :=
  cumsum (shift1 xs)

theorem cumsum_length (xs : List ℤ) : (cumsum xs).length = xs.length := by
  induction xs with
  | nil => rfl
  | cons x t ih => simp [cumsum, ih]

theorem cumsum_getD (xs : List ℤ) (k : ℕ) (hk : k < xs.length) :
    (cumsum xs).getD k 0 = (xs.take (k + 1)).sum := by
  induction xs generalizing k with
  | nil => simp at hk
  | cons x t ih =>
    cases k with
    | zero => simp [cumsum]
    | succ k =>
      simp only [cumsum, List.getD_cons_succ, List.take_succ_cons, List.sum_cons]
      have hk' : k < (cumsum t).length := by rw [cumsum_length]; simpa using hk
      have hk'' : k < ((cumsum t).map (fun y => x + y)).length := by simpa using hk'
      rw [List.getD_eq_getElem _ _ hk'', List.getElem_map,
        ← List.getD_eq_getElem _ (0 : ℤ) hk', ih k (by simpa using hk)]

theorem take_shift1 (xs : List ℤ) (k : ℕ) (hk : k < xs.length) :
    (shift1 xs).take (k + 1) = 0 :: xs.take k := by
  simp only [shift1, List.take_succ_cons]
  congr 1
  rw [List.dropLast_eq_take, List.take_take]
  congr 1
  omega

/-- C10: in `epoch_stats`, the `cum_spikes` value of epoch `k` of a cell is
the sum of `n_spont + n_evoked` over all strictly earlier epochs of the
cell (hence `0` for the first epoch). -/
theorem cum_spikes_eq_sum_of_earlier (xs : List ℤ) (k : ℕ) (hk : k < xs.length) :
    (cum_spikes xs).getD k 0 = (xs.take k).sum := by
  have hlen : k < (shift1 xs).length := by
    simp [shift1, List.length_dropLast]
    omega
  rw [cum_spikes, cumsum_getD _ _ hlen, take_shift1 xs k hk]
  simp

/-- Witness for C10 at a concrete input: the third epoch's `cum_spikes`
equals the spikes of the first two epochs, and the first epoch's is 0. -/
theorem cum_spikes_eq_sum_of_earlier_witness :
    (cum_spikes [5, 7, 100]).getD 2 0 = 12 ∧ (cum_spikes [5, 7, 100]).getD 0 0 = 0 :=
  ⟨by rw [cum_spikes_eq_sum_of_earlier [5, 7, 100] 2 (by decide)]; decide,
   by rw [cum_spikes_eq_sum_of_earlier [5, 7, 100] 0 (by decide)]; decide⟩

/-! ## `response-stats.py`: per-sweep firing statistics (`sweep_firing_stats`) -/

/-- Membership in `pd.Interval(a, b)` (default `closed="right"`): `a < e ≤ b`. -/
def in_stim (a b e : ℚ) : Bool :=
  decide (a < e) && decide (e ≤ b)

/-- The spike-derived part of one `sweep_firing_stats` row. -/
structure SweepFiring where
  rate : Option ℚ
  duration : Option ℚ
  n_evoked : ℕ
  deriving Repr, DecidableEq

/-- `response-stats.sweep_firing_stats`, restricted to the fields the claims
are about.  `stim = none` models a sweep whose `stimulus.interval` field is
absent (NaN), in which case unpacking it raises `TypeError` and the except
branch records NaN rate/duration and zero spikes. -/
def sweep_firing_stats (stim : Option (ℚ × ℚ)) (events : List ℚ)
    (first_spike_width first_spike_trough_t : ℚ) : SweepFiring :=
  match stim with
  | none => ⟨none, none, 0⟩
  | some (a, b) =>
    let spikes := events.filter (fun e => in_stim a b e)
    let n_spikes := spikes.length
    let rate := (n_spikes : ℚ) / (b - a)
    let duration : Option ℚ :=
      if n_spikes = 0 then none
      else if n_spikes = 1 then
        some ((first_spike_width + first_spike_trough_t) / 1000)
      else some (spikes.getLast?.getD 0 - spikes.headI)
    ⟨some rate, duration, n_spikes⟩

/-- C5: for a sweep with a defined stimulus interval, the evoked firing
duration is undefined when no spike falls in the interval, is
`(first-spike width + first-spike trough time)/1000` when exactly one
does, and is the time from the first to the last in-interval spike when
two or more do. -/
theorem firing_duration_cases (a b : ℚ) (events : List ℚ) (w tr : ℚ) :
    (sweep_firing_stats (some (a, b)) events w tr).duration =
      if events.countP (fun e => decide (a < e ∧ e ≤ b)) = 0 then none
      else if events.countP (fun e => decide (a < e ∧ e ≤ b)) = 1 then
        some ((w + tr) / 1000)
      else
        some ((events.filter (fun e => decide (a < e ∧ e ≤ b))).getLast?.getD 0 -
          (events.filter (fun e => decide (a < e ∧ e ≤ b))).headI) := by
  have hp : ∀ e : ℚ, in_stim a b e = decide (a < e ∧ e ≤ b) := by
    intro e
    by_cases h1 : a < e <;> by_cases h2 : e ≤ b <;> simp [in_stim, h1, h2]
  have hfilter : events.filter (fun e => in_stim a b e) =
      events.filter (fun e => decide (a < e ∧ e ≤ b)) :=
    List.filter_congr (fun e _ => hp e)
  simp only [sweep_firing_stats, hfilter, List.countP_eq_length_filter]

/-! ## `response-stats.py`: rheobase (`epoch_firing_slope` / `epoch_firing_stats`) -/

/-- `(sweeps.firing_rate > 0).to_numpy().nonzero()` head: position of the
first sweep with nonzero firing rate. -/
def firstFiringIdx (rates : List ℚ) : Option ℕ :=
  rates.findIdx? (fun r => decide (0 < r))

/-- Whether entry `i` of the per-epoch `firing_rate_slope` series built by
`epoch_firing_slope` is NaN.  The pandas semantics captured here:
`Series.diff()` makes entry 0 NaN; `slope.iloc[:idx[0]] = nan` masks every
entry before the first firing sweep; a float quotient is NaN exactly when
it is `0/0` (a `x/0` with `x ≠ 0` is `±inf`, which is not NaN); and when no
sweep fires the whole series is set to NaN. -/
def slope_is_nan (currents rates : List ℚ) (i : ℕ) : Bool :=
  match firstFiringIdx rates with
  | none => true
  | some k =>
    decide (i = 0) || decide (i < k) ||
      (decide (rates.getD i 0 - rates.getD (i - 1) 0 = 0) &&
       decide (currents.getD i 0 - currents.getD (i - 1) 0 = 0))

/-- `fr_slope.first_valid_index()` of `epoch_firing_stats`, as a position:
the first non-NaN entry of the epoch's `firing_rate_slope` series. -/
def first_valid_index (currents rates : List ℚ) : Option ℕ :=
  (List.range rates.length).find? (fun i => ! slope_is_nan currents rates i)

/-- The `rheobase` value computed by `epoch_firing_stats` for an epoch with
injected currents `currents` and firing rates `rates` (NaN = `none`).
When no slope entry is valid, `first_valid_index` is `None` and the
`KeyError` branch records NaN; when the first valid position is 0 the
slice `iloc[-1:1]` is empty and its mean is NaN; otherwise the mean of the
currents at positions `idx - 1` and `idx`. -/
def rheobase (currents rates : List ℚ) : Option ℚ :=
  match first_valid_index currents rates with
  | none => none
  | some idx =>
    if idx = 0 then none
    else some ((currents.getD (idx - 1) 0 + currents.getD idx 0) / 2)

/-- C4 (code bug): on an epoch whose first (zero-current) sweep already
fires, the code returns a *defined* rheobase — the mean of the first two
current values — because `Series.diff()` always makes slope entry 0 NaN,
so `first_valid_index` can never be position 0, contrary to the comment in
`epoch_firing_stats` ("this will be nan if idx is 0, which corresponds to
spikes when zero current was injected"). -/
theorem rheobase_defined_when_firing_at_zero_current :
    rheobase [0, 50] [10, 20] = some 25 ∧ firstFiringIdx [10, 20] = some 0 := by
  constructor
  · norm_num [rheobase, first_valid_index, slope_is_nan, firstFiringIdx,
      List.findIdx?, List.range, List.range.loop, List.find?]
  · norm_num [firstFiringIdx, List.findIdx?]

/-! ## `response-stats.py`: Vm-deviance sweep exclusion (`iv_deviation`) -/

/-- Sorted insertion, ascending. -/
def insertRat (x : ℚ) : List ℚ → List ℚ
  | [] => [x]
  | y :: t => if x ≤ y then x :: y :: t else y :: insertRat x t

/-- Insertion sort, ascending. -/
def sortRat : List ℚ → List ℚ
  | [] => []
  | x :: t => insertRat x (sortRat t)

/-- pandas median: middle element of the sorted values for odd length, mean
of the two middle elements for even length.  (pandas returns NaN for an
empty column; every use below is on nonempty data, and the value `0` here
is an arbitrary placeholder for that case.) -/
def median (xs : List ℚ) : ℚ :=
  let s := sortRat xs
  let n := xs.length
  if n = 0 then 0
  else if n % 2 = 1 then s.getD (n / 2) 0
  else (s.getD (n / 2 - 1) 0 + s.getD (n / 2) 0) / 2

/-- An epoch's steady-state voltage table `iv_stats["voltage"]`: one row
per sweep, one entry per step (5 steps in the data this script reads).
`colOf M j` is column `j`: step `j`'s voltage across the epoch's sweeps. -/
def colOf (M : List (List ℚ)) (j : ℕ) : List ℚ :=
  M.map (fun row => row.getD j 0)

/-- Entry of the voltage table: sweep `s`, step `j`. -/
def entry (M : List (List ℚ)) (s j : ℕ) : ℚ :=
  (M.getD s []).getD j 0

/-- `iv_deviation` numerator for column `j`:
`(sweep_steps - sweep_steps.median()).abs()`.  `DataFrame.median()`
aggregates each column over the rows (sweeps) of the epoch group. -/
def devCol (M : List (List ℚ)) (j : ℕ) : List ℚ :=
  (colOf M j).map (fun v => |v - median (colOf M j)|)

/-- `iv_deviation` denominator for column `j`: `dev.median()`, the median
absolute deviation of step `j` across the epoch's sweeps. -/
def madCol (M : List (List ℚ)) (j : ℕ) : ℚ :=
  median (devCol M j)

/-- One cell of `v_dev > args.max_Vm_deviance`.  The source compares the
float quotient `dev / mad` with the bound; multiplying out is exact for
the degenerate denominators too: `dev` and `mad` are nonnegative, and for
`mad = 0` the float quotient is `+inf` when `dev > 0` (so the comparison
is true, as `dev > 0 = maxdev * 0` here) and NaN when `dev = 0` (so the
comparison is false, as is `0 > 0`). -/
def step_exceeds (M : List (List ℚ)) (maxdev : ℚ) (s j : ℕ) : Bool :=
  decide ((devCol M j).getD s 0 > maxdev * madCol M j)

/-- `bad_sweeps` from `response-stats.py` `__main__`:
`(v_dev[[0, 2, 3, 4]] > args.max_Vm_deviance).any(axis=1)` for sweep `s`
of the epoch — only the baseline and hyperpolarization steps are checked,
never the depolarizing step (column 1). -/
def bad_sweep (M : List (List ℚ)) (maxdev : ℚ) (s : ℕ) : Bool :=
  ([0, 2, 3, 4] : List ℕ).any (fun j => step_exceeds M maxdev s j)

/-- The exclusion criterion as the claim words it ("deviation of that
step's voltage from the sweep's own median voltage", in MADs of the
sweep's own deviations): medians taken along the sweep's row instead of
the epoch's column.  Stated only to be compared against `bad_sweep`. -/
def bad_sweep_rowwise (M : List (List ℚ)) (maxdev : ℚ) (s : ℕ) : Bool :=
  let row := M.getD s []
  let dev := row.map (fun v => |v - median row|)
  let mad := median dev
  ([0, 2, 3, 4] : List ℕ).any (fun j => decide (dev.getD j 0 > maxdev * mad))

/-- Pointwise update of the voltage table: sweep `r`, step `j` set to `x`. -/
def setEntry (M : List (List ℚ)) (r j : ℕ) (x : ℚ) : List (List ℚ) :=
  M.set r ((M.getD r []).set j x)

/-- C7 counterexample: an epoch of three identical sweeps whose step-4
voltage is far from the other steps.  The code's per-step (column) medians
give zero deviation everywhere, so no sweep is excluded; the claim's
"sweep's own median" (row) criterion would exclude every sweep. -/
theorem bad_sweep_ne_rowwise_counterexample :
    bad_sweep [[0, 0, 0, 0, 1000], [0, 0, 0, 0, 1000], [0, 0, 0, 0, 1000]] 10 0 = false ∧
    bad_sweep_rowwise [[0, 0, 0, 0, 1000], [0, 0, 0, 0, 1000], [0, 0, 0, 0, 1000]] 10 0 = true := by
  constructor
  · norm_num [bad_sweep, step_exceeds, devCol, madCol, colOf, median, sortRat, insertRat]
  · norm_num [bad_sweep_rowwise, median, sortRat, insertRat]

theorem getD_set_ne (l : List ℚ) (i j : ℕ) (a : ℚ) (h : i ≠ j) :
    (l.set i a).getD j 0 = l.getD j 0 := by
  simp only [List.getD, List.get?_eq_getElem?, List.getElem?_set_ne h]

theorem colOf_setEntry (M : List (List ℚ)) (r : ℕ) (x : ℚ) (j : ℕ) (hj : j ≠ 1) :
    colOf (setEntry M r 1 x) j = colOf M j := by
  induction M generalizing r with
  | nil => rfl
  | cons row t ih =>
    cases r with
    | zero =>
      simp only [setEntry, List.getD_cons_zero, List.set_cons_zero, colOf, List.map_cons,
        List.map]
      rw [getD_set_ne row 1 j x (Ne.symm hj)]
    | succ r =>
      simp only [setEntry, List.getD_cons_succ, List.set_cons_succ, colOf, List.map_cons]
      have := ih r
      simp only [setEntry, colOf] at this
      rw [this]

theorem getD_map_abs (l : List ℚ) (m : ℚ) (s : ℕ) (hs : s < l.length) :
    (l.map (fun v => |v - m|)).getD s 0 = |l.getD s 0 - m| := by
  have hs' : s < (l.map (fun v => |v - m|)).length := by simpa using hs
  rw [List.getD_eq_getElem _ _ hs', List.getElem_map, List.getD_eq_getElem _ _ hs]

theorem colOf_length (M : List (List ℚ)) (j : ℕ) : (colOf M j).length = M.length := by
  simp [colOf]

theorem colOf_getD (M : List (List ℚ)) (s j : ℕ) (hs : s < M.length) :
    (colOf M j).getD s 0 = entry M s j := by
  have hs' : s < (colOf M j).length := by rw [colOf_length]; exact hs
  simp only [colOf, entry] at hs' ⊢
  rw [List.getD_eq_getElem _ _ hs', List.getElem_map, List.getD_eq_getElem M _ hs]

/-- C7 amended: sweep `s` of an epoch is flagged for exclusion exactly when,
for one of the baseline or hyperpolarization steps (0, 2, 3, 4), the
absolute deviation of that step's voltage from the *epoch's per-step
median across sweeps* exceeds the configured multiple of that step's
median absolute deviation across sweeps; the depolarizing step's voltage
(column 1) never influences the flag. -/
theorem bad_sweep_iff_step_deviates (M : List (List ℚ)) (maxdev : ℚ) (s : ℕ)
    (hs : s < M.length) :
    (bad_sweep M maxdev s = true ↔
      ∃ j ∈ ([0, 2, 3, 4] : List ℕ),
        |entry M s j - median (colOf M j)| >
          maxdev * median ((colOf M j).map (fun v => |v - median (colOf M j)|))) ∧
    (∀ r x, bad_sweep (setEntry M r 1 x) maxdev s = bad_sweep M maxdev s) := by
  have hcell : ∀ j : ℕ, step_exceeds M maxdev s j =
      decide (|entry M s j - median (colOf M j)| >
        maxdev * median ((colOf M j).map (fun v => |v - median (colOf M j)|))) := by
    intro j
    simp only [step_exceeds, devCol, madCol]
    have h1 := getD_map_abs (colOf M j) (median (colOf M j)) s
      (by rw [colOf_length]; exact hs)
    have h2 := colOf_getD M s j hs
    simp only [h1, h2]
  constructor
  · simp only [bad_sweep, List.any_eq_true]
    constructor
    · rintro ⟨j, hj, hex⟩
      refine ⟨j, hj, ?_⟩
      rw [hcell j, decide_eq_true_eq] at hex
      exact hex
    · rintro ⟨j, hj, hdev⟩
      exact ⟨j, hj, by rw [hcell j, decide_eq_true_eq]; exact hdev⟩
  · intro r x
    have hcols : ∀ j, j ≠ 1 →
        step_exceeds (setEntry M r 1 x) maxdev s j = step_exceeds M maxdev s j := by
      intro j hj1
      simp only [step_exceeds, devCol, madCol, colOf_setEntry M r x j hj1]
    simp only [bad_sweep, List.any_cons, List.any_nil]
    rw [hcols 0 (by decide), hcols 2 (by decide), hcols 3 (by decide),
      hcols 4 (by decide)]

/-- Witness for C7's amended theorem at a concrete epoch: sweep 0 of
`[[−60, −30, −65, −70, −65], [−60, −30, −65, −70, −65], [0, −30, −65, −70, −65]]`
is not flagged at 10 MADs, matching the per-step criterion, and editing the
depolarizing column leaves the flag unchanged. -/
theorem bad_sweep_iff_step_deviates_witness :
    (bad_sweep [[-60, -30, -65, -70, -65], [-60, -30, -65, -70, -65],
        [0, -30, -65, -70, -65]] 10 0 = true ↔
      ∃ j ∈ ([0, 2, 3, 4] : List ℕ),
        |entry [[-60, -30, -65, -70, -65], [-60, -30, -65, -70, -65],
            [0, -30, -65, -70, -65]] 0 j -
          median (colOf [[-60, -30, -65, -70, -65], [-60, -30, -65, -70, -65],
            [0, -30, -65, -70, -65]] j)| >
          10 * median ((colOf [[-60, -30, -65, -70, -65], [-60, -30, -65, -70, -65],
            [0, -30, -65, -70, -65]] j).map
            (fun v => |v - median (colOf [[-60, -30, -65, -70, -65],
              [-60, -30, -65, -70, -65], [0, -30, -65, -70, -65]] j)|))) ∧
    bad_sweep (setEntry [[-60, -30, -65, -70, -65], [-60, -30, -65, -70, -65],
        [0, -30, -65, -70, -65]] 2 1 999) 10 0 =
      bad_sweep [[-60, -30, -65, -70, -65], [-60, -30, -65, -70, -65],
        [0, -30, -65, -70, -65]] 10 0 := by
  have h := bad_sweep_iff_step_deviates
    [[-60, -30, -65, -70, -65], [-60, -30, -65, -70, -65], [0, -30, -65, -70, -65]]
    10 0 (by decide)
  exact ⟨h.1, h.2 2 999⟩

/-! ## Run-length encoding (`qst.runlength_encode`) -/

/-- Modelled from the spec: `qst.runlength_encode` lives in the external
`quickspikes` library (absent from this repository); the spec says the
truncated integer command trace is "run-length encoded into contiguous
(value, start, length) segments".  `rle_groups` computes the contiguous
`(length, value)` groups, in order. -/
def rle_groups : List ℤ → List (ℕ × ℤ)
  | [] => []
  | x :: xs =>
    match rle_groups xs with
    | [] => [(1, x)]
    | (n, v) :: tl => if x = v then (n + 1, v) :: tl else (1, x) :: (n, v) :: tl

/-- Attach the start index of each group, given the index of the first. -/
def with_starts (off : ℕ) : List (ℕ × ℤ) → List (ℕ × ℕ × ℤ)
  | [] => []
  | (n, v) :: tl => (n, off, v) :: with_starts (off + n) tl

/-- Modelled from the spec: the `(length, start, value)` triples returned
by `qst.runlength_encode` (the script unpacks them as
`step_len, step_start, step_val`). -/
def runlength_encode (xs : List ℤ) : List (ℕ × ℕ × ℤ) :=
  with_starts 0 (rle_groups xs)

/-- Write `value` at positions `[start, start + len)` of a buffer. -/
def write_run (buf : List ℤ) (start len : ℕ) (v : ℤ) : List ℤ :=
  buf.take start ++ List.replicate len v ++ buf.drop (start + len)

/-- Reconstruct a sequence from encoded segments by writing each value at
positions `[start, start + length)`. -/
def rl_decode (segs : List (ℕ × ℕ × ℤ)) (buf : List ℤ) : List ℤ :=
  segs.foldl (fun b s => write_run b s.2.1 s.1 s.2.2) buf

/-- Concatenation of the groups' replicated values. -/
def groupsFlat (g : List (ℕ × ℤ)) : List ℤ :=
  (g.map (fun p => List.replicate p.1 p.2)).flatten

/-- Total length of the groups. -/
def sumLens (g : List (ℕ × ℤ)) : ℕ :=
  (g.map Prod.fst).sum

theorem groupsFlat_rle_groups (xs : List ℤ) : groupsFlat (rle_groups xs) = xs := by
  induction xs with
  | nil => rfl
  | cons x xs ih =>
    cases h : rle_groups xs with
    | nil =>
      rw [h] at ih
      simp only [groupsFlat, List.map_nil, List.flatten_nil] at ih
      simp only [rle_groups, h, groupsFlat, List.map_cons, List.map_nil,
        List.flatten_cons, List.flatten_nil]
      simp [List.replicate, ← ih]
    | cons hd tl =>
      obtain ⟨n, v⟩ := hd
      rw [h] at ih
      by_cases hxv : x = v
      · simp only [rle_groups, h, if_pos hxv]
        simp only [groupsFlat, List.map_cons, List.flatten_cons] at ih ⊢
        rw [List.replicate_succ, List.cons_append, ih, hxv]
      · simp only [rle_groups, h, if_neg hxv]
        simp only [groupsFlat, List.map_cons, List.flatten_cons] at ih ⊢
        rw [← ih]
        simp [List.replicate]

theorem length_groupsFlat (g : List (ℕ × ℤ)) : (groupsFlat g).length = sumLens g := by
  induction g with
  | nil => rfl
  | cons hd tl ih => simp [groupsFlat, sumLens, List.flatten] at ih ⊢; omega

theorem write_run_append (p b : List ℤ) (n : ℕ) (v : ℤ) :
    write_run (p ++ b) p.length n v = p ++ List.replicate n v ++ b.drop n := by
  unfold write_run
  rw [List.take_left, List.drop_append]

theorem rl_decode_append (g : List (ℕ × ℤ)) (p b : List ℤ) (hb : b.length = sumLens g) :
    rl_decode (with_starts p.length g) (p ++ b) = p ++ groupsFlat g := by
  induction g generalizing p b with
  | nil =>
    have : b = [] := List.eq_nil_of_length_eq_zero (by simpa [sumLens] using hb)
    simp [rl_decode, with_starts, groupsFlat, this]
  | cons hd tl ih =>
    obtain ⟨n, v⟩ := hd
    simp only [with_starts, rl_decode, List.foldl_cons]
    rw [write_run_append p b n v]
    have hlen : (p ++ List.replicate n v).length = p.length + n := by
      simp
    have hb' : (b.drop n).length = sumLens tl := by
      simp only [sumLens, List.map_cons, List.sum_cons] at hb
      simp [List.length_drop, hb, sumLens]
    have := ih (p ++ List.replicate n v) (b.drop n) hb'
    simp only [rl_decode] at this
    rw [← hlen, this, List.append_assoc]
    simp [groupsFlat]

/-- C6: run-length encoding round-trips — writing each encoded segment's
value at positions `[start, start + length)` over any buffer of the
original length reproduces the original integer sequence. In `abf2pprox`
this applies to the command trace truncated to integers. -/
theorem runlength_encode_roundtrip (xs buf : List ℤ) (h : buf.length = xs.length) :
    rl_decode (runlength_encode xs) buf = xs := by
  have hflat := groupsFlat_rle_groups xs
  have hb : buf.length = sumLens (rle_groups xs) := by
    rw [← length_groupsFlat, hflat]
    exact h
  have := rl_decode_append (rle_groups xs) [] buf hb
  simpa [runlength_encode, hflat] using this

/-- Witness for C6 at a concrete input: decoding the encoding of
`[0, 0, 5, 5, 5, -3]` over a scratch buffer recovers the sequence. -/
theorem runlength_encode_roundtrip_witness :
    rl_decode (runlength_encode [0, 0, 5, 5, 5, -3]) [9, 9, 9, 9, 9, 9] =
      [0, 0, 5, 5, 5, -3] :=
  runlength_encode_roundtrip [0, 0, 5, 5, 5, -3] [9, 9, 9, 9, 9, 9] (by decide)

/-! ## `abf2pprox.py`: per-sweep processing (`__main__`, lines 236-361)

The sweep loop of `abf2pprox` is embedded as a function of the truncated
integer command trace `Ic`, the voltage and current traces `V`/`I`, and
the outcome of the external `quickspikes` spike detector (the detector
itself is library code outside this repository; its result — the optional
first spike, the detector threshold, and the extracted spike sample
times — is an input here).  The `quantities` package makes the source's
unit conversions exact, so a single consistent time base stands in for
the ms/s rescalings. -/

/-- The first spike found by `SpikeFinder.calculate_threshold`. -/
structure FirstSpike where
  peak_V : ℚ
  takeoff_V : ℚ
  deriving Repr, DecidableEq

/-- How a sweep's processing dies: `fatal` is `log.error` followed by
`parser.exit` (a logged fatal exit); `uncaught` is an unhandled Python
exception (nonzero exit status, no logged error message). -/
inductive SweepError
  | fatal (msg : String)
  | uncaught (msg : String)
  deriving Repr, DecidableEq

/-- The per-sweep constants of `abf2pprox` (all derived from the sampling
rate and the CLI arguments): `pad` is `int(interval_padding * rate)`,
`sDepol`/`sHypol` the steady-window sample counts, `iAfter` is
`int(rate * 1 ms)` used by `series_resistance`, `period` the sampling
period, `ampMin` is `args.first_spike_amplitude_min`. -/
structure SweepCfg where
  pad : ℕ
  sDepol : ℕ
  sHypol : ℕ
  iAfter : ℕ
  period : ℚ
  ampMin : ℚ
  deriving Repr, DecidableEq

/-- The claim-relevant fields of the per-sweep `trial` record (the pure
metadata fields — offset, recording interval, temperature — are I/O
pass-through and are omitted). -/
structure Trial where
  events : List ℚ
  spike_base : Option ℚ
  spike_thresh : Option ℚ
  steps_I : List (Option ℚ)
  steps_V : List (Option ℚ)
  stimulus : Option (Option ℚ × ℚ × ℚ)
  Rs : ℚ
  Rm : ℚ
  deriving Repr, DecidableEq

/-- `step_len, step_start, step_val = qst.runlength_encode(Ic.astype("i"))` -/
def stepSegs (Ic : List ℤ) : List (ℕ × ℕ × ℤ) :=
  runlength_encode Ic

/-- The `step_val` array: each segment's value. -/
def stepVals (Ic : List ℤ) : List ℤ :=
  (stepSegs Ic).map (fun s => s.2.2)

/-- `step_start[k]`. -/
def segStart (Ic : List ℤ) (k : ℕ) : ℤ :=
  (((stepSegs Ic).getD k (0, 0, 0)).2.1 : ℤ)

/-- `step_len[k]`. -/
def segLen (Ic : List ℤ) (k : ℕ) : ℤ :=
  (((stepSegs Ic).getD k (0, 0, 0)).1 : ℤ)

/-- `step_end[k] = step_start[k] + step_len[k]`. -/
def segEnd (Ic : List ℤ) (k : ℕ) : ℤ :=
  segStart Ic k + segLen Ic k

/-- `first_index(lambda x: x == 0, step_val)`. -/
def zeroStep (Ic : List ℤ) : Option ℕ :=
  first_index (fun x => decide (x = 0)) (stepVals Ic)

/-- `first_index(lambda x: x > 0, step_val) or 0`: Python `or` replaces
both `None` and the (falsy) index `0` by `0`. -/
def depolStep (Ic : List ℤ) : ℕ :=
  (first_index (fun x => decide (0 < x)) (stepVals Ic)).getD 0

/-- `first_index(lambda x: x < 0, step_val)`. -/
def hypolStep (Ic : List ℤ) : Option ℕ :=
  first_index (fun x => decide (x < 0)) (stepVals Ic)

/-- The baseline interval: the zero step minus the edge padding. -/
def baselineInterval (cfg : SweepCfg) (Ic : List ℤ) (z : ℕ) : Interval :=
  ⟨segStart Ic z + cfg.pad, segEnd Ic z - cfg.pad, cfg.period⟩

/-- The depolarization steady-state interval: the trailing
`steady_interval_depol` window of the step, minus the edge padding. -/
def depolInterval (cfg : SweepCfg) (Ic : List ℤ) (d : ℕ) : Interval :=
  ⟨segEnd Ic d - cfg.sDepol, segEnd Ic d - cfg.pad, cfg.period⟩

/-- The stimulus interval recorded in `trial["stimulus"]`. -/
def stimInterval (cfg : SweepCfg) (Ic : List ℤ) (d : ℕ) : Interval :=
  ⟨segStart Ic d, segEnd Ic d, cfg.period⟩

/-- A hyperpolarization steady-state interval: the trailing
`steady_interval_hypol` window of the step, minus the edge padding. -/
def hypolInterval (cfg : SweepCfg) (Ic : List ℤ) (k : ℕ) : Interval :=
  ⟨segEnd Ic k - cfg.sHypol, segEnd Ic k - cfg.pad, cfg.period⟩

/-- The pre-step baseline interval built inside `series_resistance`
(whose `sampling_period` argument is `None` in the source; it is never
read on this path, so `0` stands in). -/
def rsBeforeInterval (cfg : SweepCfg) (idx : ℤ) : Interval :=
  ⟨idx - cfg.pad, idx, 0⟩

/-- `abf2pprox.series_resistance`: ΔV/ΔI around `idx`, from the mean over
`[idx - i_before, idx)` to the spot values at `idx + i_after`.  The spot
indexing is numpy scalar indexing and raises `IndexError` out of range. -/
def series_resistance (I V : List ℚ) (idx : ℤ) (cfg : SweepCfg) :
    Except SweepError ℚ :=
  let before := rsBeforeInterval cfg idx
  match npGet I (idx + cfg.iAfter), npGet V (idx + cfg.iAfter) with
  | some iSpot, some vSpot =>
    let dI := (before.mean_of I none).getD 0 - iSpot
    let dV := (before.mean_of V none).getD 0 - vSpot
    .ok (dV / dI)
  | _, _ => .error (.uncaught "IndexError: spot sample beyond end of trace")

/-- The spike-detection outcome recorded in the trial (lines 264-287): a
missing first spike or one whose amplitude `peak_V - takeoff_V` is below
the minimum leaves the events list empty and sets no threshold/base
field; otherwise the extracted spike times (converted to time units) and
the detector state are recorded. -/
def spikeFields (cfg : SweepCfg) (first_spike : Option FirstSpike)
    (spike_thresh : ℚ) (spike_times : List ℕ) : List ℚ × Option ℚ × Option ℚ :=
  match first_spike with
  | none => ([], none, none)
  | some fs =>
    if fs.peak_V - fs.takeoff_V < cfg.ampMin then ([], none, none)
    else (spike_times.map (fun t => (t : ℚ) * cfg.period), some fs.takeoff_V,
      some spike_thresh)

/-- One iteration of the sweep loop of `abf2pprox` (lines 236-361),
starting after the signal loading: run-length encode the command trace,
record the spike-detection outcome, locate the command steps by sign,
average each step's steady-state window, and compute Rs/Rm.  The returned
list collects every `Interval` the iteration constructs, in order.  A
located step index that is `None` (or past the end of the segment array)
makes the subsequent numpy indexing raise — an unhandled exception, not a
logged exit; only the no-segments-at-all check is a logged fatal exit. -/
def processSweep (cfg : SweepCfg) (Ic : List ℤ) (V I : List ℚ)
    (first_spike : Option FirstSpike) (spike_thresh : ℚ) (spike_times : List ℕ) :
    Except SweepError (Trial × List Interval) :=
  let segs := stepSegs Ic
  if segs.length = 0 then
    .error (.fatal "protocol channel does not have any current steps")
  else
    let ebt := spikeFields cfg first_spike spike_thresh spike_times
    let events := ebt.1
    match zeroStep Ic with
    | none => .error (.uncaught "TypeError: cannot slice with step_start[None] (no zero-valued step)")
    | some z =>
      let bIv := baselineInterval cfg Ic z
      let bI := bIv.mean_of I none
      let bV := bIv.mean_of V none
      let d := depolStep Ic
      let dIv := depolInterval cfg Ic d
      let dI := dIv.mean_of I none
      let dV := dIv.mean_of V (some events)
      let stim : Option (Option ℚ × ℚ × ℚ) :=
        if 0 < d then some (dI, (stimInterval cfg Ic d).times) else none
      match hypolStep Ic with
      | none => .error (.uncaught "TypeError: cannot slice with step_end[None] (no negative-valued step)")
      | some hy =>
        let h1Iv := hypolInterval cfg Ic hy
        let h1I := h1Iv.mean_of I none
        let h1V := h1Iv.mean_of V (some events)
        match series_resistance I V (segStart Ic hy) cfg with
        | .error e => .error e
        | .ok Rs1 =>
          match h1V with
          | none => .error (.uncaught "TypeError: NoneType in Rm_1 (spike in hyperpolarization window)")
          | some vh1 =>
            let Rm1 := (vh1 - bV.getD 0) / (h1I.getD 0 - bI.getD 0)
            if hy + 1 < segs.length then
              let h2Iv := hypolInterval cfg Ic (hy + 1)
              let h2I := h2Iv.mean_of I none
              let h2V := h2Iv.mean_of V (some events)
              match series_resistance I V (segStart Ic (hy + 1)) cfg with
              | .error e => .error e
              | .ok Rs2 =>
                match h2V with
                | none => .error (.uncaught "TypeError: NoneType in Rm_2 (spike in hyperpolarization window)")
                | some vh2 =>
                  let Rm2 := (vh2 - vh1) / (h2I.getD 0 - h1I.getD 0)
                  .ok ({ events := events, spike_base := ebt.2.1, spike_thresh := ebt.2.2,
                         steps_I := [bI, dI, h1I, h2I],
                         steps_V := [bV, dV, some vh1, some vh2],
                         stimulus := stim,
                         Rs := (Rs1 + Rs2) / 2, Rm := (Rm1 + Rm2) / 2 },
                       [bIv, dIv] ++ (if 0 < d then [stimInterval cfg Ic d] else []) ++
                         [h1Iv, rsBeforeInterval cfg (segStart Ic hy), h2Iv,
                          rsBeforeInterval cfg (segStart Ic (hy + 1))])
            else
              .error (.uncaught "IndexError: no step after the first hyperpolarization step")

/-- `isOk` of a sweep result. -/
def exceptOk : Except SweepError (Trial × List Interval) → Bool
  | .ok _ => true
  | .error _ => false

/-- The intervals constructed by a (successful) sweep run. -/
def resultIntervals (r : Except SweepError (Trial × List Interval)) : List Interval :=
  match r with
  | .ok (_, ivs) => ivs
  | .error _ => []

/-- The trial emitted by a (successful) sweep run. -/
def resultTrial (r : Except SweepError (Trial × List Interval)) : Option Trial :=
  match r with
  | .ok (t, _) => some t
  | .error _ => none

/-- The structural conditions under which the step parsing of a sweep
traverses without raising: a zero-valued and a negative-valued segment
exist, a further segment follows the first hyperpolarization segment, and
both `series_resistance` spot samples are inside the traces. -/
def parse_ok (cfg : SweepCfg) (Ic : List ℤ) (V I : List ℚ) : Bool :=
  match zeroStep Ic, hypolStep Ic with
  | some _, some hy =>
    decide (hy + 1 < (stepSegs Ic).length) &&
    decide (segStart Ic hy + cfg.iAfter < (I.length : ℤ)) &&
    decide (segStart Ic hy + cfg.iAfter < (V.length : ℤ)) &&
    decide (segStart Ic (hy + 1) + cfg.iAfter < (I.length : ℤ)) &&
    decide (segStart Ic (hy + 1) + cfg.iAfter < (V.length : ℤ))
  | _, _ => false

theorem npGet_eq_some (xs : List ℚ) (i : ℤ) (h0 : 0 ≤ i) (hl : i < (xs.length : ℤ)) :
    ∃ q, npGet xs i = some q := by
  unfold npGet
  have hneg : ¬ i < 0 := by omega
  simp only [if_neg hneg]
  have hcond : 0 ≤ i ∧ i.toNat < xs.length := ⟨h0, by omega⟩
  rw [dif_pos hcond]
  exact ⟨_, rfl⟩

theorem series_resistance_ok (I V : List ℚ) (idx : ℤ) (cfg : SweepCfg)
    (hI : idx + cfg.iAfter < (I.length : ℤ)) (hV : idx + cfg.iAfter < (V.length : ℤ))
    (h0 : 0 ≤ idx) :
    ∃ r, series_resistance I V idx cfg = .ok r := by
  obtain ⟨qi, hqi⟩ := npGet_eq_some I (idx + cfg.iAfter) (by omega) hI
  obtain ⟨qv, hqv⟩ := npGet_eq_some V (idx + cfg.iAfter) (by omega) hV
  unfold series_resistance
  rw [hqi, hqv]
  exact ⟨_, rfl⟩

theorem mean_of_nil_events (iv : Interval) (ts : List ℚ) :
    iv.mean_of ts (some []) = some (listMean (iv.sliceOf ts)) := by
  simp [Interval.mean_of, Interval.containsEvent]

theorem zeroStep_some_segs_ne_nil (Ic : List ℤ) (z : ℕ) (h : zeroStep Ic = some z) :
    ¬ (stepSegs Ic).length = 0 := by
  intro hlen
  rw [List.length_eq_zero] at hlen
  rw [zeroStep, stepVals, first_index, hlen] at h
  simp at h

/-- C1 amended: when the truncated command trace has no segments at all, a
fatal error is logged and the process exits; a missing zero-valued or
negative-valued segment kills the process through an *unhandled
exception* (no logged fatal error); and a missing positive-valued segment
is not fatal at all — segment index 0 is substituted for the depolarizing
step, the sweep continues, and the emitted trial merely lacks the
stimulus field. -/
theorem step_absence_behaviour (cfg : SweepCfg) (Ic : List ℤ) (V I : List ℚ)
    (fs : Option FirstSpike) (th : ℚ) (sp : List ℕ) :
    (stepSegs Ic = [] →
      processSweep cfg Ic V I fs th sp =
        .error (.fatal "protocol channel does not have any current steps")) ∧
    (stepSegs Ic ≠ [] → zeroStep Ic = none →
      processSweep cfg Ic V I fs th sp =
        .error (.uncaught
          "TypeError: cannot slice with step_start[None] (no zero-valued step)")) ∧
    (∀ z, zeroStep Ic = some z → hypolStep Ic = none →
      processSweep cfg Ic V I fs th sp =
        .error (.uncaught
          "TypeError: cannot slice with step_end[None] (no negative-valued step)")) ∧
    (first_index (fun x => decide (0 < x)) (stepVals Ic) = none →
      ∀ t ivs, processSweep cfg Ic V I fs th sp = .ok (t, ivs) → t.stimulus = none) := by
  refine ⟨?_, ?_, ?_, ?_⟩
  · intro h
    simp [processSweep, h]
  · intro hne hz
    have hlen : ¬ (stepSegs Ic).length = 0 := by
      simpa [List.length_eq_zero] using hne
    simp [processSweep, hlen, hz]
  · intro z hz hh
    have hlen := zeroStep_some_segs_ne_nil Ic z hz
    simp [processSweep, hlen, hz, hh]
  · intro hpos t ivs hok
    have hd : depolStep Ic = 0 := by simp [depolStep, hpos]
    simp only [processSweep, hd] at hok
    split at hok
    · exact absurd hok (by simp)
    · split at hok
      · exact absurd hok (by simp)
      · split at hok
        · exact absurd hok (by simp)
        · split at hok
          · exact absurd hok (by simp)
          · split at hok
            · exact absurd hok (by simp)
            · split at hok
              · split at hok
                · exact absurd hok (by simp)
                · split at hok
                  · exact absurd hok (by simp)
                  · rw [Except.ok.injEq, Prod.mk.injEq] at hok
                    rw [← hok.1]
                    simp
              · exact absurd hok (by simp)

/-- A concrete per-sweep configuration for the concrete runs below:
padding 1 sample, steady windows 2 samples, spot offset 1 sample, unit
sampling period, 30 mV first-spike minimum. -/
def cfgEx : SweepCfg :=
  ⟨1, 2, 2, 1, 1, 30⟩

/-- A flat 9-sample trace. -/
def zeros9 : List ℚ :=
  [0, 0, 0, 0, 0, 0, 0, 0, 0]

/-- C1 counterexample: a sweep whose command trace
`[0, 0, 0, -1, -1, -1, -2, -2, -2]` has no positive-valued segment is
processed to completion — no fatal log-and-exit, no exception — with the
zero segment substituted for the depolarizing step (so no stimulus field
is emitted), contradicting the claim that any absent expected step type is
reported as a fatal error and exits the process. -/
theorem no_positive_step_not_fatal :
    first_index (fun x => decide (0 < x))
      (stepVals [0, 0, 0, -1, -1, -1, -2, -2, -2]) = none ∧
    exceptOk (processSweep cfgEx [0, 0, 0, -1, -1, -1, -2, -2, -2] zeros9 zeros9
      none 0 []) = true ∧
    (resultTrial (processSweep cfgEx [0, 0, 0, -1, -1, -1, -2, -2, -2] zeros9 zeros9
      none 0 [])).map Trial.stimulus = some none :=
  ⟨rfl, rfl, rfl⟩

/-- Witness for C1's amended theorem at concrete traces: an empty trace is
the logged fatal exit; `[5, 5, -1]` (no zero segment) and `[0, 5, 5]` (no
negative segment) die by unhandled exception; and the successful
no-positive-segment run of `[0, 0, 0, -1, -1, -1, -2, -2, -2]` emits no
stimulus field. -/
theorem step_absence_behaviour_witness :
    processSweep cfgEx [] zeros9 zeros9 none 0 [] =
      .error (.fatal "protocol channel does not have any current steps") ∧
    processSweep cfgEx [5, 5, -1] zeros9 zeros9 none 0 [] =
      .error (.uncaught
        "TypeError: cannot slice with step_start[None] (no zero-valued step)") ∧
    processSweep cfgEx [0, 5, 5] zeros9 zeros9 none 0 [] =
      .error (.uncaught
        "TypeError: cannot slice with step_end[None] (no negative-valued step)") ∧
    (resultTrial (processSweep cfgEx [0, 0, 0, -1, -1, -1, -2, -2, -2] zeros9 zeros9
      none 0 [])).map Trial.stimulus = some none := by
  refine ⟨?_, ?_, ?_, ?_⟩
  · exact (step_absence_behaviour cfgEx [] zeros9 zeros9 none 0 []).1 rfl
  · exact (step_absence_behaviour cfgEx [5, 5, -1] zeros9 zeros9 none 0 []).2.1
      (by decide) rfl
  · exact (step_absence_behaviour cfgEx [0, 5, 5] zeros9 zeros9 none 0 []).2.2.1
      0 rfl rfl
  · have h := (step_absence_behaviour cfgEx [0, 0, 0, -1, -1, -1, -2, -2, -2]
      zeros9 zeros9 none 0 []).2.2.2 (by rfl)
    cases hE : processSweep cfgEx [0, 0, 0, -1, -1, -1, -2, -2, -2] zeros9 zeros9
        none 0 [] with
    | error e =>
      have hok : exceptOk (processSweep cfgEx [0, 0, 0, -1, -1, -1, -2, -2, -2]
          zeros9 zeros9 none 0 []) = true := rfl
      rw [hE] at hok
      simp [exceptOk] at hok
    | ok p =>
      obtain ⟨t, ivs⟩ := p
      have hs := h t ivs hE
      simp [resultTrial, hE, hs]

theorem processSweep_ok_fields (cfg : SweepCfg) (Ic : List ℤ) (V I : List ℚ)
    (fs : Option FirstSpike) (th : ℚ) (sp : List ℕ) :
    ∀ t ivs, processSweep cfg Ic V I fs th sp = .ok (t, ivs) →
      t.events = (spikeFields cfg fs th sp).1 ∧
      t.spike_base = (spikeFields cfg fs th sp).2.1 ∧
      t.spike_thresh = (spikeFields cfg fs th sp).2.2 := by
  intro t ivs hok
  simp only [processSweep] at hok
  split at hok
  · exact absurd hok (by simp)
  · split at hok
    · exact absurd hok (by simp)
    · split at hok
      · exact absurd hok (by simp)
      · split at hok
        · exact absurd hok (by simp)
        · split at hok
          · exact absurd hok (by simp)
          · split at hok
            · split at hok
              · exact absurd hok (by simp)
              · split at hok
                · exact absurd hok (by simp)
                · rw [Except.ok.injEq, Prod.mk.injEq] at hok
                  rw [← hok.1]
                  exact ⟨rfl, rfl, rfl⟩
            · exact absurd hok (by simp)

/-- C3: a sweep in which the detector finds no first spike, or a first
spike whose amplitude `peak_V - takeoff_V` is below the configured
minimum, is emitted (whenever the command-step parsing itself traverses)
as a successful quiescent trial: empty events list, no `spike_thresh`
field, no `spike_base` field — not an error exit. -/
theorem quiescent_sweep_records_empty (cfg : SweepCfg) (Ic : List ℤ) (V I : List ℚ)
    (fs : Option FirstSpike) (th : ℚ) (sp : List ℕ)
    (hq : fs = none ∨ ∃ f, fs = some f ∧ f.peak_V - f.takeoff_V < cfg.ampMin)
    (hp : parse_ok cfg Ic V I = true) :
    ∃ t ivs, processSweep cfg Ic V I fs th sp = .ok (t, ivs) ∧
      t.events = [] ∧ t.spike_thresh = none ∧ t.spike_base = none := by
  have hsf : spikeFields cfg fs th sp = ([], none, none) := by
    rcases hq with h | ⟨f, hf, hamp⟩
    · simp [spikeFields, h]
    · simp [spikeFields, hf, hamp]
  rcases hz : zeroStep Ic with _ | z
  · simp only [parse_ok, hz] at hp
    exact Bool.noConfusion hp
  · rcases hhy : hypolStep Ic with _ | hy
    · simp only [parse_ok, hz, hhy] at hp
      exact Bool.noConfusion hp
    · simp only [parse_ok, hz, hhy, Bool.and_eq_true, decide_eq_true_eq] at hp
      obtain ⟨⟨⟨⟨hp1, hp2⟩, hp3⟩, hp4⟩, hp5⟩ := hp
      have hlen0 : ¬ ((stepSegs Ic).length = 0) := zeroStep_some_segs_ne_nil Ic z hz
      obtain ⟨r1, hr1⟩ := series_resistance_ok I V (segStart Ic hy) cfg hp2 hp3
        (by simp [segStart])
      obtain ⟨r2, hr2⟩ := series_resistance_ok I V (segStart Ic (hy + 1)) cfg hp4 hp5
        (by simp [segStart])
      have hok : exceptOk (processSweep cfg Ic V I fs th sp) = true := by
        simp only [processSweep, hz, hhy, hsf, hr1, hr2, mean_of_nil_events,
          if_neg hlen0, if_pos hp1, exceptOk]
      cases hE : processSweep cfg Ic V I fs th sp with
      | error e =>
        rw [hE] at hok
        simp [exceptOk] at hok
      | ok p =>
        obtain ⟨t, ivs⟩ := p
        have hf := processSweep_ok_fields cfg Ic V I fs th sp t ivs hE
        exact ⟨t, ivs, rfl, by rw [hf.1, hsf], by rw [hf.2.2, hsf], by rw [hf.2.1, hsf]⟩

/-- Witness for C3 at a concrete sweep: command trace
`[0, 0, 0, 5, 5, 5, -1, -1, -1, -2, -2, -2]` with no detected first spike
yields a successful trial with empty events and no threshold/base. -/
theorem quiescent_sweep_records_empty_witness :
    ∃ t ivs, processSweep cfgEx [0, 0, 0, 5, 5, 5, -1, -1, -1, -2, -2, -2]
        (zeros9 ++ [0, 0, 0]) (zeros9 ++ [0, 0, 0]) none 0 [] = .ok (t, ivs) ∧
      t.events = [] ∧ t.spike_thresh = none ∧ t.spike_base = none :=
  quiescent_sweep_records_empty cfgEx [0, 0, 0, 5, 5, 5, -1, -1, -1, -2, -2, -2]
    (zeros9 ++ [0, 0, 0]) (zeros9 ++ [0, 0, 0]) none 0 [] (Or.inl rfl) (by rfl)

theorem processSweep_ok_shape (cfg : SweepCfg) (Ic : List ℤ) (V I : List ℚ)
    (fs : Option FirstSpike) (th : ℚ) (sp : List ℕ) :
    ∀ t ivs, processSweep cfg Ic V I fs th sp = .ok (t, ivs) →
      ∃ z hy, zeroStep Ic = some z ∧ hypolStep Ic = some hy ∧
        t.steps_V.getD 0 none = (baselineInterval cfg Ic z).mean_of V none ∧
        ivs = [baselineInterval cfg Ic z, depolInterval cfg Ic (depolStep Ic)] ++
          (if 0 < depolStep Ic then [stimInterval cfg Ic (depolStep Ic)] else []) ++
          [hypolInterval cfg Ic hy, rsBeforeInterval cfg (segStart Ic hy),
           hypolInterval cfg Ic (hy + 1), rsBeforeInterval cfg (segStart Ic (hy + 1))] := by
  intro t ivs hok
  simp only [processSweep] at hok
  split at hok
  · exact absurd hok (by simp)
  · split at hok
    · exact absurd hok (by simp)
    · rename_i z hz
      split at hok
      · exact absurd hok (by simp)
      · rename_i hy hhy
        split at hok
        · exact absurd hok (by simp)
        · split at hok
          · exact absurd hok (by simp)
          · split at hok
            · split at hok
              · exact absurd hok (by simp)
              · split at hok
                · exact absurd hok (by simp)
                · rw [Except.ok.injEq, Prod.mk.injEq] at hok
                  exact ⟨z, hy, hz, hhy, by rw [← hok.1]; rfl, hok.2.symm⟩
            · exact absurd hok (by simp)

/-- C8 amended: every `Interval` constructed by a sweep run that completes
without a fatal error has `start_index ≤ end_index`, *provided* the
located zero/baseline segment is at least `2 * padding` samples long and
the padding does not exceed the steady-window lengths (true of the
hard-coded 2 ms padding and 300/150 ms windows).  Without the
zero-segment length condition the baseline interval can be inverted (see
the counterexample). -/
theorem intervals_start_le_end (cfg : SweepCfg) (Ic : List ℤ) (V I : List ℚ)
    (fs : Option FirstSpike) (th : ℚ) (sp : List ℕ)
    (hok : exceptOk (processSweep cfg Ic V I fs th sp) = true)
    (hzlen : ∀ z, zeroStep Ic = some z → 2 * (cfg.pad : ℤ) ≤ segLen Ic z)
    (hd : cfg.pad ≤ cfg.sDepol) (hh : cfg.pad ≤ cfg.sHypol) :
    (resultIntervals (processSweep cfg Ic V I fs th sp)).all
      (fun iv => decide (iv.start_index ≤ iv.end_index)) = true := by
  cases hE : processSweep cfg Ic V I fs th sp with
  | error e =>
    rw [hE] at hok
    simp [exceptOk] at hok
  | ok p =>
    obtain ⟨t, ivs⟩ := p
    obtain ⟨z, hy, hz, hhy, _, hivs⟩ := processSweep_ok_shape cfg Ic V I fs th sp t ivs hE
    show (ivs.all fun iv => decide (iv.start_index ≤ iv.end_index)) = true
    rw [hivs]
    have hzl := hzlen z hz
    have hd' : (cfg.pad : ℤ) ≤ (cfg.sDepol : ℤ) := by exact_mod_cast hd
    have hh' : (cfg.pad : ℤ) ≤ (cfg.sHypol : ℤ) := by exact_mod_cast hh
    have hnn : ∀ k, (0 : ℤ) ≤ segLen Ic k := by
      intro k
      simp [segLen]
    have h1 := hnn (depolStep Ic)
    by_cases hdp : 0 < depolStep Ic
    · simp only [if_pos hdp, List.all_append, List.all_cons, List.all_nil,
        baselineInterval, depolInterval, stimInterval, hypolInterval,
        rsBeforeInterval, segEnd, Bool.and_eq_true, decide_eq_true_eq,
        Bool.and_true, and_true, true_and]
      repeat' apply And.intro
      all_goals first | trivial | omega
    · simp only [if_neg hdp, List.all_append, List.all_cons, List.all_nil,
        baselineInterval, depolInterval, hypolInterval,
        rsBeforeInterval, segEnd, Bool.and_eq_true, decide_eq_true_eq,
        Bool.and_true, and_true, true_and]
      repeat' apply And.intro
      all_goals first | trivial | omega

/-- C8 counterexample: the command trace `[0, -1, -1, -1, -2, -2, -2]` has
a 1-sample zero segment; the sweep is processed to completion (no fatal
error), yet the baseline interval it constructs is `[1, 0)` — start index
greater than end index, violating the invariant as claimed. -/
theorem inverted_baseline_interval_counterexample :
    exceptOk (processSweep cfgEx [0, -1, -1, -1, -2, -2, -2] [0, 0, 0, 0, 0, 0, 0]
      [0, 0, 0, 0, 0, 0, 0] none 0 []) = true ∧
    (resultIntervals (processSweep cfgEx [0, -1, -1, -1, -2, -2, -2]
      [0, 0, 0, 0, 0, 0, 0] [0, 0, 0, 0, 0, 0, 0] none 0 [])).map
        (fun iv => decide (iv.start_index ≤ iv.end_index)) =
      [false, true, true, true, true, true] :=
  ⟨rfl, rfl⟩

/-- Witness for C8's amended theorem at a concrete sweep whose zero
segment (2 samples) is at least twice the 1-sample padding: every
constructed interval satisfies start ≤ end. -/
theorem intervals_start_le_end_witness :
    (resultIntervals (processSweep cfgEx [0, 0, 5, 5, 5, -1, -1, -1, -2, -2, -2, -2]
      (zeros9 ++ [0, 0, 0]) (zeros9 ++ [0, 0, 0]) none 0 [])).all
      (fun iv => decide (iv.start_index ≤ iv.end_index)) = true := by
  refine intervals_start_le_end cfgEx [0, 0, 5, 5, 5, -1, -1, -1, -2, -2, -2, -2]
    (zeros9 ++ [0, 0, 0]) (zeros9 ++ [0, 0, 0]) none 0 [] rfl ?_ (by decide) (by decide)
  intro z hzeq
  have h0 : zeroStep [0, 0, 5, 5, 5, -1, -1, -1, -2, -2, -2, -2] = some 0 := rfl
  rw [h0, Option.some.injEq] at hzeq
  rw [← hzeq]
  decide

/-- C9: `Interval.mean_of` called with no events argument (`None`) or with
an empty event list always returns the mean of the samples at
`[start, end)` and never returns `None`, even if spikes occur inside the
interval; and in `abf2pprox` the baseline step's mean voltage is exactly
such an unfiltered mean — every emitted trial's first `steps_V` entry is
`mean_of(V)` of the baseline interval with no events, and is defined. -/
theorem mean_of_no_events_total (iv : Interval) (ts : List ℚ) (cfg : SweepCfg)
    (Ic : List ℤ) (V I : List ℚ) (fs : Option FirstSpike) (th : ℚ) (sp : List ℕ) :
    iv.mean_of ts none = some (listMean (iv.sliceOf ts)) ∧
    iv.mean_of ts (some []) = iv.mean_of ts none ∧
    (∀ t ivs z, processSweep cfg Ic V I fs th sp = .ok (t, ivs) →
      zeroStep Ic = some z →
      t.steps_V.getD 0 none = (baselineInterval cfg Ic z).mean_of V none ∧
      (t.steps_V.getD 0 none).isSome = true) := by
  refine ⟨rfl, ?_, ?_⟩
  · rw [mean_of_nil_events]
    rfl
  · intro t ivs z hE hz
    obtain ⟨z', hy, hz', hhy, hbase, hivs⟩ :=
      processSweep_ok_shape cfg Ic V I fs th sp t ivs hE
    rw [hz] at hz'
    rw [Option.some.injEq] at hz'
    subst hz'
    exact ⟨hbase, by rw [hbase]; rfl⟩

/-- Witness for C9 at concrete inputs: the empty event list and the
missing event list agree on `[1, 2, 6]` over `[0, 3)`, and the trial
emitted for command trace `[0, 0, -1, -1, -2, -2]` records as its
baseline voltage the unfiltered baseline-interval mean. -/
theorem mean_of_no_events_total_witness :
    (Interval.mk 0 3 1).mean_of [1, 2, 6] (some []) =
      (Interval.mk 0 3 1).mean_of [1, 2, 6] none ∧
    (resultTrial (processSweep cfgEx [0, 0, -1, -1, -2, -2] [0, 0, 0, 0, 0, 0]
      [0, 0, 0, 0, 0, 0] none 0 [])).map (fun t => t.steps_V.getD 0 none) =
      some ((baselineInterval cfgEx [0, 0, -1, -1, -2, -2] 0).mean_of
        [0, 0, 0, 0, 0, 0] none) := by
  constructor
  · exact (mean_of_no_events_total (Interval.mk 0 3 1) [1, 2, 6] cfgEx []
      [] [] none 0 []).2.1
  · cases hE : processSweep cfgEx [0, 0, -1, -1, -2, -2] [0, 0, 0, 0, 0, 0]
        [0, 0, 0, 0, 0, 0] none 0 [] with
    | error e =>
      have hok : exceptOk (processSweep cfgEx [0, 0, -1, -1, -2, -2]
          [0, 0, 0, 0, 0, 0] [0, 0, 0, 0, 0, 0] none 0 []) = true := rfl
      rw [hE] at hok
      simp [exceptOk] at hok
    | ok p =>
      obtain ⟨t, ivs⟩ := p
      have h3 := (mean_of_no_events_total (Interval.mk 0 3 1) [1, 2, 6] cfgEx
        [0, 0, -1, -1, -2, -2] [0, 0, 0, 0, 0, 0] [0, 0, 0, 0, 0, 0]
        none 0 []).2.2 t ivs 0 hE rfl
      exact congrArg some h3.1

end CmPlasticity
